import Mathlib

/-!
Verification development for the robot-framework reporter.

The definitions below are a shallow embedding of the reporter's core:
the identifier grammar of `models/test_item.py`, the resilient registry
client of `api_connectors/testomatio_connector.py`, the source rewriter
of `utils/test_parser.py`, the reconciliation loop of
`reporter/listener.py`, and the inventory-key parser exercised by
`tests/test_utils/test_utility_functions.py`.  Network calls are
abstracted as environments mapping the index of an attempt (or of a
request) to its outcome; everything else is translated line by line.
-/

set_option linter.unusedVariables false

namespace RFReporter

/-! ### Identifier grammar (`models/test_item.py`) -/

/-- Prepend a character to the first segment of a split result; this is the
helper that mirrors how Python's `str.split` accumulates the current
segment while scanning left to right. -/
def consHead (c : Char) : List (List Char) → List (List Char)
  | [] => [[c]]
  | s :: ss => (c :: s) :: ss

/-- Python's `title.split('@T')` on a list of characters: a greedy
left-to-right scan for the two-character separator.  (`"@T"` cannot
overlap itself, so this is exactly the set of occurrences.) -/
def splitAT : List Char → List (List Char)
  | [] => [[]]
  | [c] => [[c]]
  | c1 :: c2 :: rest =>
    if c1 = '@' ∧ c2 = 'T' then [] :: splitAT rest
    else consHead c1 (splitAT (c2 :: rest))

/-- Whether the two-character marker prefix `@T` occurs anywhere. -/
def containsAT : List Char → Bool
  | [] => false
  | [_] => false
  | c1 :: c2 :: rest => (c1 = '@' && c2 = 'T') || containsAT (c2 :: rest)

/-- Extraction `TestItem.get_test_id`: split the title on `'@T'`; if more than one
segment results, the identifier is the last segment (`split[-1]`),
otherwise there is none. -/
def get_test_id (title : List Char) : Option (List Char) :=
  if 1 < (splitAT title).length then (splitAT title).getLast? else none

/-! ### Resilient registry client: retry loop
(`Connector._send_request_with_retry`, `Connector._should_retry`) -/

/-- An HTTP response, abstracted to its status code. -/
structure Response where
  status : Nat
deriving Repr, DecidableEq

/-- Outcome of one low-level request attempt: a response, or one of the
exception classes the code distinguishes (`ConnectionError`,
`HTTPError`, anything else). -/
inductive ReqOutcome where
  | ok (r : Response)
  | connError
  | httpError
  | otherError
deriving Repr, DecidableEq

/-- What `_send_request_with_retry` does overall: return a response,
re-raise one of the caught exception classes, or raise the dedicated
`MaxRetriesException` once the attempt budget is exhausted. -/
inductive SendResult where
  | response (r : Response)
  | raisedConn
  | raisedHttp
  | raisedOther
  | maxRetriesExc
deriving Repr, DecidableEq

/-- Predicate `Connector._should_retry`: retry only on status codes `>= 501`. -/
def should_retry (r : Response) : Bool := 501 ≤ r.status

/-- One pass of the `for attempt in range(self.max_retries)` loop of
`_send_request_with_retry`.  `env attempt` is the outcome of the
attempt with that index, `remaining` the number of loop iterations
left.  The result carries the loop's outcome together with the number
of attempts issued and the number of `time.sleep` calls made. -/
def sendGo (env : Nat → ReqOutcome) (maxRetries : Nat) :
    Nat → Nat → SendResult × Nat × Nat
  | _, 0 => (.maxRetriesExc, 0, 0)
  | attempt, remaining + 1 =>
    match env attempt with
    | .ok r =>
      if should_retry r then
        if attempt < maxRetries then
          let nxt := sendGo env maxRetries (attempt + 1) remaining
          (nxt.1, nxt.2.1 + 1, nxt.2.2 + 1)
        else (.response r, 1, 0)
      else (.response r, 1, 0)
    | .connError => (.raisedConn, 1, 0)
    | .httpError => (.raisedHttp, 1, 0)
    | .otherError => (.raisedOther, 1, 0)

/-- Dispatch `Connector._send_request_with_retry`: run the loop from attempt 0
with `maxRetries` iterations available. -/
def send_request_with_retry (env : Nat → ReqOutcome) (maxRetries : Nat) :
    SendResult × Nat × Nat :=
  sendGo env maxRetries 0 maxRetries

/-- The environment of a server that always answers 503. -/
def always503 : Nat → ReqOutcome := fun _ => .ok ⟨503⟩

/-! ### Resilient registry client: batch upload
(`Connector.batch_tests_upload`) -/

/-- The chunk/`batch_index` pairs that the loop
`for i in range(0, len(tests), batch_size)` of `batch_tests_upload`
produces: the slice `tests[i:i+batch_size]` together with
`i // batch_size + 1`.  `fuel` dominates the slice count (the list is
non-empty and shrinks by `bs ≥ 1` each step) and `i` is the running
range value.  A zero step would raise `ValueError` in Python, so the
top-level wrapper guards on it. -/
def batchReqGo (bs : Nat) : Nat → Nat → List α → List (List α × Nat)
  | 0, _, _ => []
  | fuel + 1, i, l =>
    if l.isEmpty then []
    else (l.take bs, i / bs + 1) :: batchReqGo bs fuel (i + bs) (l.drop bs)

/-- All requests that `batch_tests_upload` would build for `tests` with
the configured `batch_size`. -/
def batchRequests (tests : List α) (bs : Nat) : List (List α × Nat) :=
  if bs = 0 then [] else batchReqGo bs tests.length 0 tests

/-- How `batch_tests_upload` terminates: either it returns normally
(covering success, the logged-and-swallowed exception path, and
non-403 failure statuses) or it raises `ReportFailedException`. -/
inductive BatchResult where
  | ok
  | reportFailed
deriving Repr, DecidableEq

/-- The chunk loop of `batch_tests_upload`.  `env k` is the result of the
`k`-th call to `_send_request_with_retry` (0-based in request order).
A response with status 403 logs the forbidden message and raises
`ReportFailedException`, which the `except ReportFailedException`
clause re-raises; every other response (200 or otherwise) lets the
loop continue; any exception is caught by `except Exception`, logged,
and the method returns, abandoning the remaining chunks.  The second
component counts the requests actually issued. -/
def batchLoop (env : Nat → SendResult) :
    List (List α × Nat) → Nat → BatchResult × Nat
  | [], _ => (.ok, 0)
  | _ :: rest, k =>
    match env k with
    | .response r =>
      if r.status = 403 then (.reportFailed, 1)
      else
        let nxt := batchLoop env rest (k + 1)
        (nxt.1, nxt.2 + 1)
    | _ => (.ok, 1)

/-- Upload `Connector.batch_tests_upload`: empty result lists are skipped
outright; otherwise the chunks are uploaded sequentially. -/
def batch_tests_upload (env : Nat → SendResult) (tests : List α) (bs : Nat) :
    BatchResult × Nat :=
  if tests.isEmpty then (.ok, 0) else batchLoop env (batchRequests tests bs) 0

/-- The environment of a server that answers every upload with 200. -/
def allOk : Nat → SendResult := fun _ => .response ⟨200⟩

/-! ### Resilient registry client: inventory upload flags
(`Connector.load_tests`) -/

/-- The boolean flags of the `/api/load` request body built by
`load_tests` (`framework`, `language`, the test list and the `file`
computation are independent of them and elided). -/
structure LoadRequest where
  noempty : Bool
  no_detach : Bool
  structureFlag : Bool
  create : Bool
  sync : Bool
deriving Repr, DecidableEq

/-- The flag part of the request dictionary of `Connector.load_tests`:
`"structure": structure if not no_empty else False`, the other flags
taken as given, `"sync": True`. -/
def load_tests_request (no_empty no_detach structure_opt create : Bool) :
    LoadRequest :=
  { noempty := no_empty
    no_detach := no_detach
    structureFlag := if !no_empty then structure_opt else false
    create := create
    sync := true }

/-! ### Source rewriter (`utils/test_parser.py`) -/

/-- Whether a character counts as part of an identifier token: the spec
calls the token opaque alphanumeric. -/
def isAlnum (c : Char) : Bool := c.isAlpha || c.isDigit

/-- Modelled from the spec: `TEST_ID_PATTERN` lives in
`utils/constants.py`, which is absent from the sources; per the spec a
marker is the fixed prefix `@T` immediately followed by a non-empty
alphanumeric token, and `re.search` asks whether any such occurrence
exists. -/
def hasMarker : List Char → Bool
  | c1 :: c2 :: c3 :: rest =>
    (c1 = '@' && c2 = 'T' && isAlnum c3) || hasMarker (c2 :: c3 :: rest)
  | _ => false

/-- One test-case node of the parsed file model, reduced to the declared
name its header token carries. -/
structure TestBlock where
  name : String
deriving Repr, DecidableEq

/-- One top-level section of the parsed file model: whether its header is
the `*** Test Cases ***` header, and its body of test nodes. -/
structure FileSection where
  is_testcase_section : Bool
  body : List TestBlock
deriving Repr, DecidableEq

/-- The parsed structural model of one robot file
(`TestParser.model`). -/
structure RobotModel where
  sections : List FileSection
deriving Repr, DecidableEq

/-- Lookup `TestParser._find_test`: scan the test-cases sections in order and
return the first test whose declared name equals `name` exactly. -/
def find_test_in_sections : List FileSection → String → Option TestBlock
  | [], _ => none
  | s :: rest, name =>
    if s.is_testcase_section then
      match s.body.find? (fun t => t.name == name) with
      | some t => some t
      | none => find_test_in_sections rest name
    else find_test_in_sections rest name

/-- Rewrite `TestParser._update_name` applied to the node `_find_test` located:
rewrite the first test in the body whose name matches. -/
def rename_in_body : List TestBlock → String → String → List TestBlock
  | [], _, _ => []
  | t :: rest, name, new_name =>
    if t.name == name then { t with name := new_name } :: rest
    else rename_in_body rest name new_name

/-- Rewriting lifted to the section list: the section that contains the
located node has its body rewritten, the others are untouched. -/
def rename_in_sections : List FileSection → String → String → List FileSection
  | [], _, _ => []
  | s :: rest, name, new_name =>
    if s.is_testcase_section && (s.body.find? (fun t => t.name == name)).isSome then
      { s with body := rename_in_body s.body name new_name } :: rest
    else s :: rename_in_sections rest name new_name

/-- Whether some test-cases section of the model declares a test with the
given name. -/
def contains_test (secs : List FileSection) (name : String) : Bool :=
  secs.any (fun s => s.is_testcase_section && s.body.any (fun t => t.name == name))

/-- The three ways `TestParser.assign_test_id` can end: the early return
when `re.search(TEST_ID_PATTERN, test_name)` hits (nothing is written),
the `ValueError` when the test is not found, or the save of the updated
model. -/
inductive AssignResult where
  | noop
  | notFoundError
  | saved (m : RobotModel)
deriving Repr, DecidableEq

/-- Assignment `TestParser.assign_test_id`: guard on the marker pattern first, then
locate the test, then rewrite its name token to
`f'{test_name} {test_id}'` and persist. -/
def assign_test_id (m : RobotModel) (test_name test_id : String) : AssignResult :=
  if hasMarker test_name.data then .noop
  else
    match find_test_in_sections m.sections test_name with
    | none => .notFoundError
    | some _ =>
      .saved ⟨rename_in_sections m.sections test_name (test_name ++ " " ++ test_id)⟩

/-! ### Remote candidates and reconciliation matching
(`models/testomat_item.py`, `reporter/listener.py`) -/

/-- Candidate record `TestomatItem`: one decoded entry of the remote inventory. -/
structure TestomatItem where
  id : String
  title : String
  file_name : Option String
  suite : Option String
deriving Repr, DecidableEq

/-- The fields of `TestItem` that `ImportListener.close` reads when
matching local tests against remote candidates. -/
structure TestItem where
  title : String
  suite_title : String
deriving Repr, DecidableEq

/-- The match test of `ImportListener.close`:
`test.title == testomatio_test.title and
test.suite_title == testomatio_test.suite`.  The candidate's suite is
optional; comparing a string against Python's `None` is `False`. -/
def close_match (test : TestItem) (cand : TestomatItem) : Bool :=
  test.title == cand.title && some test.suite_title == cand.suite

/-- The pairs for which `close` invokes `TestParser.assign_test_id`: the
double loop over local tests and parsed candidates filtered by
`close_match`. -/
def close_assign_pairs (tests : List TestItem) (cands : List TestomatItem) :
    List (TestItem × TestomatItem) :=
  tests.flatMap fun t => (cands.filter (close_match t)).map fun c => (t, c)

/-- Skip the marker's token: everything up to the next space stays
removed, the remainder (from the space on) is kept. -/
def dropToken : List Char → List Char
  | [] => []
  | c :: rest => if c = ' ' then c :: rest else dropToken rest

/-- Modelled from the spec: the identifier-stripping pass behind
`sync_title` (referenced by the repository's tests but absent from
`models/test_item.py` as shipped) removes every occurrence of the
marker prefix plus its following token.  `fuel` dominates the input
length, which shrinks at every step. -/
def stripGo : Nat → List Char → List Char
  | 0, l => l
  | _ + 1, [] => []
  | _ + 1, [c] => [c]
  | fuel + 1, c1 :: c2 :: rest =>
    if c1 = '@' ∧ c2 = 'T' then stripGo fuel (dropToken rest)
    else c1 :: stripGo fuel (c2 :: rest)

/-- Remove every embedded identifier marker together with its token. -/
def stripIdentifiers (l : List Char) : List Char := stripGo l.length l

/-- Trim leading and trailing spaces. -/
def trimWs (l : List Char) : List Char :=
  ((l.dropWhile (fun c => c = ' ')).reverse.dropWhile (fun c => c = ' ')).reverse

/-- Modelled from the spec: `syncTitle` is the raw title with all
embedded identifier markers removed and the resulting whitespace
trimmed. -/
def syncTitle (s : String) : String := ⟨trimWs (stripIdentifiers s.data)⟩

/-- The match the spec (and the listener's own unit test
`test_close_assigns_test_ids`) prescribes: compare the candidate's
title against the local test's sync title instead of its raw title. -/
def spec_close_match (test : TestItem) (cand : TestomatItem) : Bool :=
  syncTitle test.title == cand.title && some test.suite_title == cand.suite

/-! ### Inventory-key parsing (`utils/utils.py`, absent from the
sources; behavior fixed by `tests/test_utils/test_utility_functions.py`) -/

/-- Python's `key.split('#')` on a list of characters. -/
def splitHash : List Char → List (List Char)
  | [] => [[]]
  | c :: rest =>
    if c = '#' then [] :: splitHash rest else consHead c (splitHash rest)

/-- Modelled from the spec: `parse_test_list` of `utils/utils.py` is
absent from the sources; the shape dispatch follows the spec's
`parseInventory` (one part: bare title; two parts: `suite#title` when
the left part is a known suite name; three parts: `file#suite#title`
with the suite deliberately not populated), except that for a two-part
key whose left part is not a known suite the repository's own unit
test `test_parse_test_with_two_parts_no_suite_match` fixes the title
to the right part (the spec's words would keep the whole key). -/
def candidate_of_key (key : String) (tid : String) (suite_names : List String) :
    TestomatItem :=
  match (splitHash key.data).map (fun l => String.mk l) with
  | [t] => ⟨tid, t, none, none⟩
  | [l, r] =>
    if l ∈ suite_names then ⟨tid, r, none, some l⟩ else ⟨tid, r, none, none⟩
  | [f, _, t] => ⟨tid, t, some f, none⟩
  | _ => ⟨tid, key, none, none⟩

/-- Merge a later occurrence of the same remote identifier into an
earlier one: fill any field still unset, never overwrite. -/
def merge_fill (old further : TestomatItem) : TestomatItem :=
  { old with
    file_name := old.file_name <|> further.file_name
    suite := old.suite <|> further.suite }

/-- Insert a decoded candidate into the accumulator, merging with the
entry that already carries its identifier if there is one. -/
def insert_candidate (acc : List TestomatItem) (it : TestomatItem) :
    List TestomatItem :=
  match acc with
  | [] => [it]
  | c :: rest =>
    if c.id == it.id then merge_fill c it :: rest
    else c :: insert_candidate rest it

/-- Modelled from the spec: the full `parse_test_list`, folding the raw
`tests` mapping (an insertion-ordered association list) into merged
candidates. -/
def parse_test_list (tests : List (String × String)) (suite_names : List String) :
    List TestomatItem :=
  tests.foldl (fun acc kv => insert_candidate acc (candidate_of_key kv.1 kv.2 suite_names)) []

/-! ### Proxy negotiation (`Connector._apply_proxy_settings`) -/

/-- The mutable session state the proxy negotiation touches. -/
structure Session where
  proxies : List (String × String)
  verify : Bool
deriving Repr, DecidableEq

/-- Negotiation `Connector._apply_proxy_settings`: with `HTTP_PROXY` set, install the
proxy mapping and disable certificate verification, then probe; a
failed probe falls back to a direct connection with verification
re-enabled.  Without a proxy, clear the mapping and re-enable
verification (the connectivity probe run in that branch is advisory
and does not change the session). -/
def apply_proxy_settings (http_proxy : Option String) (probe_ok : Bool)
    (s : Session) : Session :=
  match http_proxy with
  | some p =>
    let s1 := { s with proxies := [("http", p), ("https", p)], verify := false }
    if probe_ok then s1 else { s1 with proxies := [], verify := true }
  | none => { s with proxies := [], verify := true }

/-! ### Theorems: retry loop (claims C2 and C4) -/

/-- Against the constant-503 environment every iteration retries: the
loop consumes its whole budget, sleeping each time. -/
theorem sendGo_always503 (m : Nat) :
    ∀ f a, a + f = m → sendGo always503 m a f = (.maxRetriesExc, f, f) := by
  intro f
  induction f with
  | zero => intro a _; rfl
  | succ n ih =>
    intro a ha
    have hlt : a < m := by omega
    have hrec := ih (a + 1) (by omega)
    simp [sendGo, always503, should_retry, hlt, hrec]

/-- Whenever at least one loop iteration remains, at least one request
attempt is issued. -/
theorem sendGo_attempts_pos (env : Nat → ReqOutcome) (m a f : Nat) (hf : 0 < f) :
    1 ≤ (sendGo env m a f).2.1 := by
  cases f with
  | zero => omega
  | succ n =>
    simp only [sendGo]
    cases henv : env a with
    | ok r =>
      by_cases hr : should_retry r
      · by_cases hm : a < m
        · simp [hr, hm]
        · simp [hr, hm]
      · simp [hr]
    | connError => simp
    | httpError => simp
    | otherError => simp

/-- C2 (amended): against a server that always answers 503, a client
configured with `maxRetries` issues exactly `maxRetries` attempts,
sleeps exactly `maxRetries` times — once after every failed attempt,
including the last — and then raises the dedicated
`MaxRetriesException`, which is a distinct constructor from the
HTTP-level outcomes. -/
theorem retry_exhaustion (m : Nat) :
    send_request_with_retry always503 m = (.maxRetriesExc, m, m) :=
  sendGo_always503 m m 0 (by omega)

/-- C2 counterexample: with `maxRetries = 3` and every response 503 the
code sleeps 3 times, not the 2 times the claim states — the loop also
sleeps after the final failed attempt, exactly as the repository's
connector test pins down for `maxRetries = 2`. -/
theorem retry_sleep_cex :
    (send_request_with_retry always503 3).2.2 = 3 ∧ (3 : Nat) ≠ 2 := by
  exact ⟨rfl, by decide⟩

/-- C4: a received response is accepted without retry exactly when its
status is below 501 (the call returns it after a single attempt with
no sleep); a response with status at least 501 triggers a further
attempt whenever budget remains; and a connection-level failure is
never retried — it propagates from the first attempt. -/
theorem retry_classification (env : Nat → ReqOutcome) (m : Nat) (r : Response)
    (hm : 0 < m) :
    (env 0 = .ok r → r.status < 501 →
      send_request_with_retry env m = (.response r, 1, 0))
    ∧ (env 0 = .connError → send_request_with_retry env m = (.raisedConn, 1, 0))
    ∧ (env 0 = .ok r → 501 ≤ r.status → 1 < m →
      2 ≤ (send_request_with_retry env m).2.1) := by
  obtain ⟨n, rfl⟩ : ∃ n, m = n + 1 := ⟨m - 1, by omega⟩
  refine ⟨?_, ?_, ?_⟩
  · intro h0 hlt
    have hsr : should_retry r = false := by simp [should_retry]; omega
    simp [send_request_with_retry, sendGo, h0, hsr]
  · intro h0
    simp [send_request_with_retry, sendGo, h0]
  · intro h0 hge hm1
    have hsr : should_retry r = true := by simp [should_retry, hge]
    have hpos := sendGo_attempts_pos env (n + 1) 1 n (by omega)
    simp [send_request_with_retry, sendGo, h0, hsr]
    omega

/-- The environment of a server that always answers 400. -/
def env400 : Nat → ReqOutcome := fun _ => .ok ⟨400⟩

/-- C4 witness: a 400 response is returned unretried on the first
attempt, with no sleeps. -/
theorem retry_classification_witness :
    send_request_with_retry env400 5 = (.response ⟨400⟩, 1, 0) :=
  (retry_classification env400 5 ⟨400⟩ (by decide)).1 rfl (by decide)

/-! ### Theorems: batch upload (claims C5 and C8) -/

/-- Peeling one batch off the front steps the ceiling division. -/
theorem ceil_div_succ (n bs : Nat) (hbs : 0 < bs) (hn : 0 < n) :
    (n + bs - 1) / bs = (n - 1) / bs + 1 := by
  have h : n + bs - 1 = (n - 1) + bs := by omega
  rw [h, Nat.add_div_right _ hbs]

/-- Ceiling division counts one chunk plus the chunks of the rest. -/
theorem ceil_div_step (n bs : Nat) (hbs : 0 < bs) (hn : 0 < n) :
    (n + bs - 1) / bs = (n - bs + bs - 1) / bs + 1 := by
  rcases le_or_lt n bs with h | h
  · have h0 : n - bs = 0 := by omega
    have e1 : (n - 1) / bs = 0 := Nat.div_eq_of_lt (by omega)
    have e2 : (0 + bs - 1) / bs = 0 := Nat.div_eq_of_lt (by omega)
    rw [h0, ceil_div_succ n bs hbs hn, e1, e2]
  · have h1 : 0 < n - bs := by omega
    rw [ceil_div_succ n bs hbs hn, ceil_div_succ (n - bs) bs hbs h1]
    have h2 : n - 1 = (n - bs - 1) + bs := by omega
    rw [h2, Nat.add_div_right _ hbs]

/-- The request loop produces exactly `ceil(length / bs)` chunks. -/
theorem batchReqGo_length (bs : Nat) (hbs : 0 < bs) :
    ∀ (fuel : Nat) (l : List α) (i : Nat), l.length ≤ fuel →
      (batchReqGo bs fuel i l).length = (l.length + bs - 1) / bs := by
  intro fuel
  induction fuel with
  | zero =>
    intro l i hl
    have h0 : l = [] := List.length_eq_zero.mp (by omega)
    subst h0
    simp [batchReqGo]
    exact (Nat.div_eq_of_lt (by omega)).symm
  | succ f ih =>
    intro l i hl
    cases l with
    | nil =>
      simp [batchReqGo]
      exact (Nat.div_eq_of_lt (by omega)).symm
    | cons x xs =>
      have hdrop : ((x :: xs).drop bs).length ≤ f := by
        rw [List.length_drop]; simp at hl ⊢; omega
      have hrec := ih ((x :: xs).drop bs) (i + bs) hdrop
      have hstep := ceil_div_step (xs.length + 1) bs hbs (by omega)
      simp only [batchReqGo, List.isEmpty_cons, Bool.false_eq_true, if_false,
        List.length_cons, List.length_drop] at hrec ⊢
      rw [hrec, hstep]

/-- The `k`-th request of the loop carries the `k`-th consecutive slice
together with the 1-based batch index `i / bs + k + 1`. -/
theorem batchReqGo_get (bs : Nat) (hbs : 0 < bs) :
    ∀ (k fuel : Nat) (l : List α) (i : Nat), l.length ≤ fuel →
      k < (batchReqGo bs fuel i l).length →
      (batchReqGo bs fuel i l)[k]? =
        some ((l.drop (k * bs)).take bs, i / bs + k + 1) := by
  intro k
  induction k with
  | zero =>
    intro fuel l i hl hk
    cases fuel with
    | zero => simp [batchReqGo] at hk
    | succ f =>
      cases l with
      | nil => simp [batchReqGo] at hk
      | cons x xs => simp [batchReqGo]
  | succ n ih =>
    intro fuel l i hl hk
    cases fuel with
    | zero => simp [batchReqGo] at hk
    | succ f =>
      cases l with
      | nil => simp [batchReqGo] at hk
      | cons x xs =>
        have hdrop : ((x :: xs).drop bs).length ≤ f := by
          rw [List.length_drop]; simp at hl ⊢; omega
        have hk2 : n < (batchReqGo bs f (i + bs) ((x :: xs).drop bs)).length := by
          simp [batchReqGo] at hk; omega
        have hrec := ih f ((x :: xs).drop bs) (i + bs) hdrop hk2
        have hdd : (((x :: xs).drop bs).drop (n * bs)) = (x :: xs).drop ((n + 1) * bs) := by
          rw [List.drop_drop]; ring_nf
        have hdiv : (i + bs) / bs = i / bs + 1 := Nat.add_div_right _ hbs
        simp only [batchReqGo, List.isEmpty_cons, Bool.false_eq_true, if_false,
          List.getElem?_cons_succ]
        rw [hrec, hdd, hdiv]
        congr 2
        omega

/-- If every request up the list is answered with some non-403 response,
the whole list of chunks is uploaded and the method returns normally. -/
theorem batchLoop_all_responses (env : Nat → SendResult)
    (henv : ∀ j, ∃ st, env j = .response ⟨st⟩ ∧ st ≠ 403) :
    ∀ (reqs : List (List α × Nat)) (k0 : Nat),
      batchLoop env reqs k0 = (.ok, reqs.length) := by
  intro reqs
  induction reqs with
  | nil => intro k0; rfl
  | cons q rest ih =>
    intro k0
    obtain ⟨st, hst, hne⟩ := henv k0
    simp [batchLoop, hst, hne, ih (k0 + 1)]

/-- Behavior of the chunk loop at the first interesting request: chunks
before index `k` get non-403 responses; a 403 at `k` raises
`ReportFailedException` after `k + 1` requests, and an exception at `k`
makes the method return normally after `k + 1` requests, abandoning
the rest. -/
theorem batchLoop_first (env : Nat → SendResult) :
    ∀ (k : Nat) (reqs : List (List α × Nat)) (k0 : Nat),
      k < reqs.length →
      (∀ j, j < k → ∃ st, env (k0 + j) = .response ⟨st⟩ ∧ st ≠ 403) →
      (env (k0 + k) = .response ⟨403⟩ →
        batchLoop env reqs k0 = (.reportFailed, k + 1))
      ∧ ((∀ r, env (k0 + k) ≠ .response r) →
        batchLoop env reqs k0 = (.ok, k + 1)) := by
  intro k
  induction k with
  | zero =>
    intro reqs k0 hk hprev
    match reqs, hk with
    | q :: rest, _ =>
      constructor
      · intro h403
        rw [Nat.add_zero] at h403
        simp [batchLoop, h403]
      · intro hexc
        cases hc : env k0 with
        | response r =>
          exact absurd hc (by simpa using hexc r)
        | raisedConn => simp [batchLoop, hc]
        | raisedHttp => simp [batchLoop, hc]
        | raisedOther => simp [batchLoop, hc]
        | maxRetriesExc => simp [batchLoop, hc]
  | succ n ih =>
    intro reqs k0 hk hprev
    match reqs, hk with
    | q :: rest, hk2 =>
      obtain ⟨st, hst, hne⟩ := hprev 0 (by omega)
      rw [Nat.add_zero] at hst
      have ihr := ih rest (k0 + 1)
        (by simp only [List.length_cons] at hk2; omega)
        (fun j hj => by
          obtain ⟨st2, h2, hne2⟩ := hprev (j + 1) (by omega)
          exact ⟨st2, by rw [show k0 + 1 + j = k0 + (j + 1) by omega]; exact h2, hne2⟩)
      constructor
      · intro h403
        have h403s : env (k0 + 1 + n) = .response ⟨403⟩ := by
          rw [show k0 + 1 + n = k0 + (n + 1) by omega]; exact h403
        simp [batchLoop, hst, hne, ihr.1 h403s]
      · intro hexc
        have hexcs : ∀ r, env (k0 + 1 + n) ≠ .response r := fun r => by
          rw [show k0 + 1 + n = k0 + (n + 1) by omega]; exact hexc r
        simp [batchLoop, hst, hne, ihr.2 hexcs]

/-- C5: for a non-empty result list, if the chunks before position `k`
are all answered with non-403 responses, then a 403 answer at chunk
`k` makes `batch_tests_upload` raise the reportable
`ReportFailedException` immediately (k + 1 requests issued), and an
exception at chunk `k` — the only non-auth per-chunk failure path —
is swallowed: the method returns normally after `k + 1` requests and
the remaining chunks are never attempted. -/
theorem batch_failure_semantics (env : Nat → SendResult) (tests : List α)
    (bs k : Nat) (hk : k < (batchRequests tests bs).length)
    (hprev : ∀ j, j < k → ∃ st, env j = .response ⟨st⟩ ∧ st ≠ 403) :
    (env k = .response ⟨403⟩ →
      batch_tests_upload env tests bs = (.reportFailed, k + 1))
    ∧ ((∀ r, env k ≠ .response r) →
      batch_tests_upload env tests bs = (.ok, k + 1)) := by
  have hne : tests.isEmpty = false := by
    cases tests with
    | nil =>
      exfalso
      have hreqnil : batchRequests ([] : List α) bs = [] := by
        unfold batchRequests
        split <;> rfl
      rw [hreqnil] at hk
      simp at hk
    | cons x xs => rfl
  have hopen : batch_tests_upload env tests bs
      = batchLoop env (batchRequests tests bs) 0 := by
    simp [batch_tests_upload, hne]
  have h := batchLoop_first env k (batchRequests tests bs) 0 hk
    (fun j hj => by simpa using hprev j hj)
  constructor
  · intro h403
    rw [hopen]
    exact h.1 (by simpa using h403)
  · intro hexc
    rw [hopen]
    exact h.2 (fun r => by simpa using hexc r)

/-- The environment of a server that always answers 403. -/
def env403 : Nat → SendResult := fun _ => .response ⟨403⟩

/-- C5 witness: three single-result chunks against an all-403 server
raise the reportable error on the very first chunk. -/
theorem batch_failure_semantics_witness :
    batch_tests_upload env403 [0, 1, 2] 1 = (.reportFailed, 1) :=
  (batch_failure_semantics env403 [0, 1, 2] 1 0 (by decide)
    (fun j hj => absurd hj (by omega))).1 rfl

/-- C8: a non-empty result list of length `n` with batch size `s` is cut
into exactly `ceil(n / s)` requests; the `k`-th (0-based `k`) carries
the `k`-th consecutive slice of at most `s` results with 1-based
`batch_index` `k + 1`; and against an all-200 server the upload loop
issues exactly that many network calls. -/
theorem batch_chunking (l : List α) (s : Nat) (hs : 0 < s) (hl : l ≠ []) :
    (batchRequests l s).length = (l.length + s - 1) / s
    ∧ (∀ k, k < (batchRequests l s).length →
        (batchRequests l s)[k]? = some ((l.drop (k * s)).take s, k + 1))
    ∧ (∀ k, ((l.drop (k * s)).take s).length ≤ s)
    ∧ (batch_tests_upload allOk l s).2 = (l.length + s - 1) / s := by
  have hbs : s ≠ 0 := by omega
  have hlen : (batchRequests l s).length = (l.length + s - 1) / s := by
    simp only [batchRequests, if_neg hbs]
    exact batchReqGo_length s hs l.length l 0 le_rfl
  refine ⟨hlen, ?_, ?_, ?_⟩
  · intro k hk
    simp only [batchRequests, if_neg hbs] at hk ⊢
    have h := batchReqGo_get s hs k l.length l 0 le_rfl hk
    simpa [Nat.zero_div] using h
  · intro k
    rw [List.length_take]
    exact min_le_left _ _
  · have hne : l.isEmpty = false := by
      cases l with
      | nil => exact absurd rfl hl
      | cons x xs => rfl
    have hall := batchLoop_all_responses allOk
      (fun j => ⟨200, rfl, by omega⟩) (batchRequests l s) 0
    simp [batch_tests_upload, hne, hall, hlen]

/-- C8 witness: 100 results with batch size 50 issue exactly 2 requests,
and the second request carries the second fifty with batch index 2. -/
theorem batch_chunking_witness :
    (batch_tests_upload allOk (List.replicate 100 (0 : Nat)) 50).2 = 2
    ∧ (batchRequests (List.replicate 100 (0 : Nat)) 50)[1]?
      = some (((List.replicate 100 (0 : Nat)).drop 50).take 50, 2) := by
  have h := batch_chunking (List.replicate 100 (0 : Nat)) 50 (by omega) (by simp)
  constructor
  · rw [h.2.2.2]; simp
  · have h2 := h.2.1 1 (by rw [h.1]; simp)
    simpa using h2

/-! ### Theorems: identifier extraction (claim C3) -/

/-- A title without the marker prefix splits into a single segment. -/
theorem splitAT_free (s : List Char) (h : containsAT s = false) :
    splitAT s = [s] := by
  induction s using splitAT.induct with
  | case1 => rfl
  | case2 c => rfl
  | case3 c1 c2 rest hc ih =>
    exfalso
    simp [containsAT, hc.1, hc.2] at h
  | case4 c1 c2 rest hc ih =>
    have h2 : containsAT (c2 :: rest) = false := by
      simp [containsAT] at h
      exact h.2
    rw [splitAT, if_neg hc, ih h2]
    rfl

/-- Splitting around the last marker occurrence: with a marker-free tail
`b`, the split of `a ++ "@T" ++ b` has at least two segments and its
last segment is exactly `b`. -/
theorem splitAT_append (b : List Char) (hb : containsAT b = false) :
    ∀ a : List Char, 2 ≤ (splitAT (a ++ '@' :: 'T' :: b)).length
      ∧ (splitAT (a ++ '@' :: 'T' :: b)).getLast? = some b := by
  intro a
  induction a using splitAT.induct with
  | case1 =>
    rw [List.nil_append, splitAT, if_pos ⟨rfl, rfl⟩, splitAT_free b hb]
    simp
  | case2 c =>
    have hne : ¬(c = '@' ∧ '@' = 'T') := by
      rintro ⟨-, h⟩
      exact absurd h (by decide)
    rw [List.cons_append, List.nil_append, splitAT, if_neg hne,
      splitAT, if_pos ⟨rfl, rfl⟩, splitAT_free b hb]
    simp [consHead]
  | case3 c1 c2 rest hc ih =>
    obtain ⟨hlen, hlast⟩ := ih
    obtain ⟨rfl, rfl⟩ := hc
    rw [List.cons_append, List.cons_append, splitAT, if_pos ⟨rfl, rfl⟩]
    match hsp : splitAT (rest ++ '@' :: 'T' :: b), hlen, hlast with
    | s1 :: s2 :: ss, _, hlast2 =>
      rw [hsp] at hlast
      refine ⟨by simp, ?_⟩
      rw [List.getLast?_cons_cons]
      exact hlast
  | case4 c1 c2 rest hc ih =>
    obtain ⟨hlen, hlast⟩ := ih
    rw [List.cons_append, List.cons_append, splitAT, if_neg hc]
    rw [← List.cons_append]
    match hsp : splitAT ((c2 :: rest) ++ '@' :: 'T' :: b), hlen, hlast with
    | s1 :: s2 :: ss, _, _ =>
      rw [hsp] at hlast
      refine ⟨by simp [consHead], ?_⟩
      simp only [consHead, List.getLast?_cons_cons]
      rw [List.getLast?_cons_cons] at hlast
      exact hlast

/-- C3 (amended): when the title contains no occurrence of `'@T'`,
extraction returns absent; when it does, extraction returns the entire
suffix following the final occurrence of `'@T'` up to the end of the
string — including any whitespace and trailing words, not just the
next token. -/
theorem get_test_id_amended :
    (∀ t : List Char, containsAT t = false → get_test_id t = none)
    ∧ (∀ a b : List Char, containsAT b = false →
        get_test_id (a ++ '@' :: 'T' :: b) = some b) := by
  constructor
  · intro t h
    simp [get_test_id, splitAT_free t h]
  · intro a b hb
    obtain ⟨hlen, hlast⟩ := splitAT_append b hb a
    rw [get_test_id, if_pos (by omega)]
    exact hlast

/-- C3 witness: a title whose final marker is followed by a space and
more text yields the whole tail. -/
theorem get_test_id_amended_witness :
    get_test_id ("Test ".toList ++ '@' :: 'T' :: "111 tail".toList)
      = some ("111 tail".toList) :=
  get_test_id_amended.2 ("Test ".toList) ("111 tail".toList) (by decide)

/-- C3 counterexample: for the title `"ab @T12 cd"` the code returns the
full suffix `"12 cd"` after the final `'@T'`, not the
whitespace-delimited token `"12"` the claim describes. -/
theorem get_test_id_trailing_cex :
    get_test_id ("ab @T12 cd".toList) = some ("12 cd".toList)
    ∧ "12 cd".toList ≠ "12".toList := by
  constructor
  · decide
  · decide

/-! ### Theorems: reconciliation matching (claim C1) -/

/-- C1 (code bug): the listener's `close` compares the candidate's title
against the local test's *raw* title, so a test whose title carries an
embedded identifier marker is never matched and no write-back is
attempted, even though its sync title (markers stripped) equals the
candidate's title and the suites agree — the behavior the spec and the
repository's own listener test demand. -/
theorem close_match_raw_title_bug :
    close_assign_pairs [⟨"Test With ID @T12345678", "Test Suite"⟩]
        [⟨"T123", "Test With ID", none, some ("Test Suite")⟩] = []
    ∧ close_match ⟨"Test With ID @T12345678", "Test Suite"⟩
        ⟨"T123", "Test With ID", none, some ("Test Suite")⟩ = false
    ∧ spec_close_match ⟨"Test With ID @T12345678", "Test Suite"⟩
        ⟨"T123", "Test With ID", none, some ("Test Suite")⟩ = true := by
  refine ⟨?_, ?_, ?_⟩ <;> decide

/-! ### Theorems: identifier assignment (claim C6) -/

/-- Rewriting the located test's name token makes the body carry the new
name. -/
theorem rename_in_body_mem (body : List TestBlock) (name new_name : String)
    (h : (body.find? (fun t => t.name == name)).isSome = true) :
    (rename_in_body body name new_name).any (fun t => t.name == new_name) = true := by
  induction body with
  | nil => simp [List.find?] at h
  | cons t rest ih =>
    by_cases hn : t.name == name
    · simp [rename_in_body, hn]
    · have h2 : (rest.find? (fun t => t.name == name)).isSome = true := by
        simp only [List.find?, hn] at h
        exact h
      simp [rename_in_body, hn, ih h2]

/-- If the test is located somewhere in the sections, the rewritten model
contains a test carrying the new name in a test-cases section. -/
theorem find_some_rename_contains :
    ∀ (secs : List FileSection) (name new_name : String),
      find_test_in_sections secs name ≠ none →
      contains_test (rename_in_sections secs name new_name) new_name = true := by
  intro secs
  induction secs with
  | nil => intro name nn h; exact absurd rfl h
  | cons s rest ih =>
    intro name nn h
    by_cases hs : s.is_testcase_section = true
    · cases hf : s.body.find? (fun t => t.name == name) with
      | some t =>
        have hb := rename_in_body_mem s.body name nn (by rw [hf]; rfl)
        have hmem : ∃ x ∈ s.body, x.name = name :=
          ⟨t, List.mem_of_find?_eq_some hf, by simpa using List.find?_some hf⟩
        simp only [List.any_eq_true, beq_iff_eq] at hb
        simp [rename_in_sections, contains_test, hs, hmem, hb]
      | none =>
        have h2 : find_test_in_sections rest name ≠ none := by
          intro hnone
          apply h
          rw [find_test_in_sections, if_pos hs, hf]
          exact hnone
        have hrest := ih name nn h2
        simp [contains_test] at hrest
        simp [rename_in_sections, contains_test, hs, hf, hrest]
    · have h2 : find_test_in_sections rest name ≠ none := by
        intro hnone
        apply h
        rw [find_test_in_sections, if_neg hs]
        exact hnone
      have hrest := ih name nn h2
      simp [contains_test] at hrest
      simp [rename_in_sections, contains_test, hs, hrest]

/-- C6 (amended): the marker guard is evaluated before the lookup.  A
name that already carries an identifier marker makes the call a no-op
(no write, no exception) even when no test of that name exists; the
not-found error is raised exactly for marker-free names absent from
the file; and for a marker-free name that is present the declared-name
token is rewritten to `name + " " + identifier` and the model is
persisted, now containing the rewritten test. -/
theorem assign_test_id_cases (m : RobotModel) (name tid : String) :
    (hasMarker name.data = true → assign_test_id m name tid = .noop)
    ∧ (hasMarker name.data = false →
        find_test_in_sections m.sections name = none →
        assign_test_id m name tid = .notFoundError)
    ∧ (hasMarker name.data = false →
        find_test_in_sections m.sections name ≠ none →
        ∃ m2, assign_test_id m name tid = .saved m2
          ∧ contains_test m2.sections (name ++ " " ++ tid) = true) := by
  refine ⟨?_, ?_, ?_⟩
  · intro h
    simp [assign_test_id, h]
  · intro h hnf
    simp [assign_test_id, h, hnf]
  · intro h hnf
    cases hfind : find_test_in_sections m.sections name with
    | none => exact absurd hfind hnf
    | some t =>
      refine ⟨⟨rename_in_sections m.sections name (name ++ " " ++ tid)⟩, ?_, ?_⟩
      · simp [assign_test_id, h, hfind]
      · exact find_some_rename_contains m.sections name (name ++ " " ++ tid) hnf

/-- A one-section model declaring a single test named `Login`. -/
def exModel : RobotModel := ⟨[⟨true, [⟨"Login"⟩]⟩]⟩

/-- C6 witness: assigning an identifier to the marker-free, present test
`Login` saves a model that declares `Login @T99999999`. -/
theorem assign_test_id_cases_witness :
    ∃ m2, assign_test_id exModel ("Login") ("@T99999999") = .saved m2
      ∧ contains_test m2.sections ("Login" ++ " " ++ "@T99999999") = true :=
  (assign_test_id_cases exModel ("Login") ("@T99999999")).2.2 (by decide) (by decide)

/-- C6 counterexample: for a marker-bearing name absent from the file the
code returns the no-op — claimed to raise the not-found error — because
the `re.search` guard fires before `_find_test` is consulted. -/
theorem assign_marker_before_notfound_cex :
    find_test_in_sections exModel.sections ("Ghost @Tc51dd44d") = none
    ∧ assign_test_id exModel ("Ghost @Tc51dd44d") ("@T99999999") = .noop
    ∧ AssignResult.noop ≠ .notFoundError := by
  refine ⟨?_, ?_, ?_⟩ <;> decide

/-! ### Theorems: inventory upload flags (claim C7) -/

/-- C7 counterexample: with `noEmpty` and `structure` both requested, the
request body carries `structure = false`, not the `true` the claim
promises for an independently togglable flag. -/
theorem load_structure_coupled_cex :
    (load_tests_request true true true true).structureFlag = false
    ∧ (false : Bool) ≠ true := by
  exact ⟨rfl, by decide⟩

/-- C7 (amended): `noempty`, `no-detach` and `create` are sent exactly as
toggled and `sync` is always true, but the `structure` flag sent is the
conjunction of the `structure` argument with the negation of `noEmpty`:
requesting `noEmpty` forces `structure` to false. -/
theorem load_tests_flags (ne nd st cr : Bool) :
    (load_tests_request ne nd st cr).noempty = ne
    ∧ (load_tests_request ne nd st cr).no_detach = nd
    ∧ (load_tests_request ne nd st cr).create = cr
    ∧ (load_tests_request ne nd st cr).sync = true
    ∧ (load_tests_request ne nd st cr).structureFlag = (st && !ne) := by
  cases ne <;> simp [load_tests_request]

/-! ### Theorems: inventory-key parsing (claim C9) -/

/-- A hash-free key splits into a single segment. -/
theorem splitHash_free (s : List Char) (h : '#' ∉ s) : splitHash s = [s] := by
  induction s with
  | nil => rfl
  | cons c rest ih =>
    have hc : c ≠ '#' := fun e => h (e ▸ List.mem_cons_self c rest)
    have h2 : '#' ∉ rest := fun m => h (List.mem_cons_of_mem c m)
    simp [splitHash, hc, ih h2, consHead]

/-- A two-part key splits into its two hash-free parts. -/
theorem splitHash_append (l r : List Char) (hl : '#' ∉ l) (hr : '#' ∉ r) :
    splitHash (l ++ '#' :: r) = [l, r] := by
  induction l with
  | nil => simp [splitHash, splitHash_free r hr]
  | cons c l2 ih =>
    have hc : c ≠ '#' := fun e => hl (e ▸ List.mem_cons_self c l2)
    have h2 : '#' ∉ l2 := fun m => hl (List.mem_cons_of_mem c m)
    simp [splitHash, hc, ih h2, consHead]

/-- C9 (amended): a two-part key `left#right` whose left part is not a
known suite name parses to a candidate whose title is the *right* part
only — the left part and the separator are dropped — with suite and
file absent, as the repository's own parser test fixes. -/
theorem parse_two_part_unknown (l r : List Char) (tid : String)
    (suite_names : List String)
    (hl : '#' ∉ l) (hr : '#' ∉ r)
    (hs : String.mk l ∉ suite_names) :
    parse_test_list [(String.mk (l ++ '#' :: r), tid)] suite_names
      = [⟨tid, String.mk r, none, none⟩] := by
  simp only [parse_test_list, List.foldl_cons, List.foldl_nil]
  have hkey : (String.mk (l ++ '#' :: r)).data = l ++ '#' :: r := rfl
  simp only [insert_candidate, candidate_of_key, hkey,
    splitHash_append l r hl hr, List.map_cons, List.map_nil]
  simp [hs]

/-- C9 witness: the repository's own test input, via the amended
statement. -/
theorem parse_two_part_unknown_witness :
    parse_test_list
        [(String.mk ("SomethingElse".toList ++ '#' :: "Test Name".toList), "T003")]
        ["Real Suite"]
      = [⟨"T003", String.mk ("Test Name".toList), none, none⟩] :=
  parse_two_part_unknown ("SomethingElse".toList) ("Test Name".toList) ("T003")
    ["Real Suite"] (by decide) (by decide) (by decide)

/-- C9 counterexample: on the key `"SomethingElse#Test Name"` with suite
table `["Real Suite"]` the candidate's title is `"Test Name"` — the
right part — and not the whole original key the claim (and the spec's
key-parsing table) promises. -/
theorem parse_two_part_unknown_cex :
    parse_test_list [("SomethingElse#Test Name", "T003")] ["Real Suite"]
      = [⟨"T003", "Test Name", none, none⟩]
    ∧ ("Test Name" : String) ≠ "SomethingElse#Test Name" := by
  constructor
  · decide
  · decide

/-! ### Theorems: proxy negotiation (claim C10) -/

/-- C10: certificate verification is disabled exactly when a proxy is
configured and its bounded reachability probe succeeds; in that case
the session keeps the proxy mapping for both schemes, and verification
is (re-)enabled in precisely the remaining cases — no proxy configured
or probe failure. -/
theorem proxy_verify_state (hp : Option String) (ok : Bool) (s : Session) :
    ((apply_proxy_settings hp ok s).verify = false ↔ hp ≠ none ∧ ok = true)
    ∧ (∀ p, hp = some p → ok = true →
        (apply_proxy_settings hp ok s).proxies = [("http", p), ("https", p)])
    ∧ (hp = none ∨ ok = false → (apply_proxy_settings hp ok s).verify = true) := by
  refine ⟨?_, ?_, ?_⟩
  · cases hp with
    | none => simp [apply_proxy_settings]
    | some p => cases ok <;> simp [apply_proxy_settings]
  · intro p hep hok
    subst hep
    subst hok
    simp [apply_proxy_settings]
  · intro h
    cases hp with
    | none => simp [apply_proxy_settings]
    | some p =>
      rcases h with h | h
      · exact absurd h (by simp)
      · subst h
        simp [apply_proxy_settings]

/-- C10 witness: a configured proxy with a successful probe leaves
verification off and both scheme entries routed through the proxy. -/
theorem proxy_verify_state_witness :
    (apply_proxy_settings (some ("http://proxy:8080")) true ⟨[], true⟩).proxies
      = [("http", "http://proxy:8080"), ("https", "http://proxy:8080")] :=
  (proxy_verify_state (some ("http://proxy:8080")) true ⟨[], true⟩).2.1
    ("http://proxy:8080") rfl rfl

end RFReporter
